import Mathlib

/-
Verification development for the quiver library loader (package quiver).

The Go source is shallowly embedded as executable Lean definitions:
  * JSON texts are Strings, parsed by a fuel-indexed parser modelling the
    syntax layer of encoding/json (integer numerals, the standard escapes;
    a \u escape is decoded without surrogate pairing).
  * Go structs become Lean structures; nil-able pointers become Option.
  * The filesystem is an explicit tree (FSNode); paths are component lists,
    and directory enumeration order is the stored child order (ioutil.ReadDir
    yields entries sorted by name, so the stored order stands for that
    enumeration order).
  * Errors are an inductive Err; constructors that correspond to Go
    *PathError values carry the offending path, the errors built with
    errors.New or returned by the JSON decoder carry none, matching the
    information content of the Go error values.
  * A Go slice write notes[i] = n is modelled by listSet, which returns
    none exactly when the index is out of bounds (a run-time panic in Go),
    surfaced as the error indexOutOfRange.
-/

namespace Quiver

/-- ASCII lower-casing, modelling the case-insensitive JSON field-name match
of encoding/json. -/
def asciiLower (s : String) : String :=
  String.mk (s.data.map (fun c =>
    if 65 ≤ c.toNat && c.toNat ≤ 90 then Char.ofNat (c.toNat + 32) else c))

/-- Base name of a path (the last component), modelling FileInfo.Name for the
stat of that path. -/
def baseName (path : List String) : String :=
  (path.getLast?).getD ""

/-- filepath.Join of a relative directory and an entry name, as used for the
rel field of resources (empty rel joins to the bare name). -/
def goJoin (rel name : String) : String :=
  if rel = "" then name else rel ++ "/" ++ name

/-- The error values the embedded code can produce.  notFound and notAFile
model Go *PathError values (which embed the path); notADirectory and
wrongExtension model the path-free errors.New values of the validators;
malformedJSON models every error of the JSON decode layer; invalidUnmarshal
models json.InvalidUnmarshalError; invalidDataURI carries the URL printed by
fmt.Errorf; indexOutOfRange models the run-time panic of a slice write. -/
inductive Err where
  | notFound (path : List String)
  | notAFile (path : List String)
  | notADirectory
  | wrongExtension
  | malformedJSON
  | invalidUnmarshal
  | invalidDataURI (url : String)
  | invalidEncoding
  | indexOutOfRange
deriving DecidableEq

/-- os.IsNotExist on the modelled errors: true exactly for the stat/open
not-found error. -/
def Err.isNotFound : Err → Bool
  | .notFound _ => true
  | _ => false

/-- JSON values.  A numeral records its integer value and whether the literal
was a plain integer (encoding/json feeds the literal to strconv.ParseInt for
an int64 target, which accepts only plain integers). -/
inductive Json where
  | null
  | bool (b : Bool)
  | num (v : Int) (isInt : Bool)
  | str (s : String)
  | arr (elems : List Json)
  | obj (fields : List (String × Json))

/-- JSON insignificant whitespace (space, tab, newline, carriage return). -/
def skipWs : List Char → List Char
  | [] => []
  | c :: rest =>
    if c = ' ' || c = '\t' || c = '\n' || c = '\r' then skipWs rest else c :: rest

/-- Value of a hexadecimal digit, if any. -/
def hexVal (c : Char) : Option Nat :=
  if 48 ≤ c.toNat && c.toNat ≤ 57 then some (c.toNat - 48)
  else if 97 ≤ c.toNat && c.toNat ≤ 102 then some (c.toNat - 87)
  else if 65 ≤ c.toNat && c.toNat ≤ 70 then some (c.toNat - 55)
  else none

/-- Body of a JSON string literal after the opening quote: returns the decoded
characters and the input after the closing quote. -/
def parseStringChars : Nat → List Char → Option (List Char × List Char)
  | 0, _ => none
  | _ + 1, [] => none
  | fuel + 1, c :: rest =>
    if c = '"' then some ([], rest)
    else if c = '\\' then
      match rest with
      | [] => none
      | e :: rest2 =>
        if e = '"' || e = '\\' || e = '/' then
          (parseStringChars fuel rest2).map (fun p => (e :: p.1, p.2))
        else if e = 'b' then
          (parseStringChars fuel rest2).map (fun p => ('\x08' :: p.1, p.2))
        else if e = 'f' then
          (parseStringChars fuel rest2).map (fun p => ('\x0c' :: p.1, p.2))
        else if e = 'n' then
          (parseStringChars fuel rest2).map (fun p => ('\n' :: p.1, p.2))
        else if e = 'r' then
          (parseStringChars fuel rest2).map (fun p => ('\r' :: p.1, p.2))
        else if e = 't' then
          (parseStringChars fuel rest2).map (fun p => ('\t' :: p.1, p.2))
        else if e = 'u' then
          match rest2 with
          | h1 :: h2 :: h3 :: h4 :: rest3 =>
            match hexVal h1, hexVal h2, hexVal h3, hexVal h4 with
            | some a, some b, some cc, some d =>
              (parseStringChars fuel rest3).map
                (fun p => (Char.ofNat (a * 4096 + b * 256 + cc * 16 + d) :: p.1, p.2))
            | _, _, _, _ => none
          | _ => none
        else none
    else if c.toNat < 32 then none
    else (parseStringChars fuel rest).map (fun p => (c :: p.1, p.2))

/-- Leading run of decimal digits. -/
def takeDigits : List Char → (List Char × List Char)
  | [] => ([], [])
  | c :: rest =>
    if 48 ≤ c.toNat && c.toNat ≤ 57 then
      let p := takeDigits rest
      (c :: p.1, p.2)
    else ([], c :: rest)

/-- Natural number denoted by a digit run. -/
def digitsToNat (ds : List Char) : Nat :=
  ds.foldl (fun a c => a * 10 + (c.toNat - 48)) 0

/-- Optional fraction part; none on a bare dot (JSON syntax error). -/
def parseFrac : List Char → Option (Bool × List Char)
  | '.' :: r =>
    match takeDigits r with
    | ([], _) => none
    | (_, r2) => some (true, r2)
  | cs => some (false, cs)

/-- Optional exponent part; none on a bare marker (JSON syntax error). -/
def parseExp : List Char → Option (Bool × List Char)
  | [] => some (false, [])
  | c :: r =>
    if c = 'e' || c = 'E' then
      let r2 := match r with
        | s :: rr => if s = '+' || s = '-' then rr else s :: rr
        | [] => []
      match takeDigits r2 with
      | ([], _) => none
      | (_, r3) => some (true, r3)
    else some (false, c :: r)

/-- A JSON numeral (leading zeros rejected as in the JSON grammar). -/
def parseNumber (cs : List Char) : Option (Json × List Char) :=
  let p := match cs with
    | '-' :: r => (true, r)
    | _ => (false, cs)
  match takeDigits p.2 with
  | ([], _) => none
  | (ds, r1) =>
    if ds.length > 1 && ds.head? = some '0' then none
    else
      match parseFrac r1 with
      | none => none
      | some (sawFrac, r2) =>
        match parseExp r2 with
        | none => none
        | some (sawExp, r3) =>
          let isInt := !sawFrac && !sawExp
          let v : Int := if p.1 then -(digitsToNat ds : Int) else (digitsToNat ds : Int)
          some (.num (if isInt then v else 0) isInt, r3)

mutual

/-- One JSON value (fuel-indexed recursive-descent, mirroring the grammar
accepted by encoding/json). -/
def parseVal : Nat → List Char → Option (Json × List Char)
  | 0, _ => none
  | fuel + 1, cs =>
    match skipWs cs with
    | [] => none
    | c :: rest =>
      if c = 'n' then
        match rest with
        | 'u' :: 'l' :: 'l' :: r => some (.null, r)
        | _ => none
      else if c = 't' then
        match rest with
        | 'r' :: 'u' :: 'e' :: r => some (.bool true, r)
        | _ => none
      else if c = 'f' then
        match rest with
        | 'a' :: 'l' :: 's' :: 'e' :: r => some (.bool false, r)
        | _ => none
      else if c = '"' then
        match parseStringChars (rest.length + 1) rest with
        | some (chars, r) => some (.str (String.mk chars), r)
        | none => none
      else if c = '[' then
        match skipWs rest with
        | ']' :: r => some (.arr [], r)
        | cs2 =>
          match parseElems fuel cs2 with
          | some (xs, r) => some (.arr xs, r)
          | none => none
      else if c = '\x7b' then
        match skipWs rest with
        | '\x7d' :: r => some (.obj [], r)
        | cs2 =>
          match parseMembers fuel cs2 with
          | some (ms, r) => some (.obj ms, r)
          | none => none
      else if c = '-' || (48 ≤ c.toNat && c.toNat ≤ 57) then parseNumber (c :: rest)
      else none

/-- Comma-separated array elements up to the closing bracket. -/
def parseElems : Nat → List Char → Option (List Json × List Char)
  | 0, _ => none
  | fuel + 1, cs =>
    match parseVal fuel cs with
    | none => none
    | some (v, r) =>
      match skipWs r with
      | ',' :: r2 =>
        match parseElems fuel r2 with
        | some (xs, r3) => some (v :: xs, r3)
        | none => none
      | ']' :: r2 => some ([v], r2)
      | _ => none

/-- Comma-separated object members up to the closing brace. -/
def parseMembers : Nat → List Char → Option (List (String × Json) × List Char)
  | 0, _ => none
  | fuel + 1, cs =>
    match skipWs cs with
    | '"' :: rest =>
      match parseStringChars (rest.length + 1) rest with
      | none => none
      | some (kchars, r) =>
        match skipWs r with
        | ':' :: r2 =>
          match parseVal fuel r2 with
          | none => none
          | some (v, r3) =>
            match skipWs r3 with
            | ',' :: r4 =>
              match parseMembers fuel r4 with
              | some (ms, r5) => some ((String.mk kchars, v) :: ms, r5)
              | none => none
            | '\x7d' :: r4 => some ([(String.mk kchars, v)], r4)
            | _ => none
        | _ => none
    | _ => none

end

/-- One JSON value read from the front of the stream, as json.Decoder.Decode
does (trailing input is not examined); none on a syntax error or an empty
stream. -/
def parseJsonText (s : String) : Option Json :=
  match parseVal (2 * s.length + 8) s.data with
  | some (v, _) => some v
  | none => none

/-- A node of the declared notebook hierarchy (type NotebookHierarchyInfo):
uuid plus ordered children. -/
inductive NotebookHierarchyInfo where
  | mk (uuid : String) (children : List NotebookHierarchyInfo)

/-- The UUID of a hierarchy node. -/
def NotebookHierarchyInfo.uuid : NotebookHierarchyInfo → String
  | .mk u _ => u

/-- The children of a hierarchy node. -/
def NotebookHierarchyInfo.children : NotebookHierarchyInfo → List NotebookHierarchyInfo
  | .mk _ c => c

/-- LibraryMetadata: the declared hierarchy forest from the library meta.json. -/
structure LibraryMetadata where
  children : List NotebookHierarchyInfo

/-- NotebookMetadata: name and uuid from a notebook meta.json. -/
structure NotebookMetadata where
  name : String
  uuid : String
deriving DecidableEq

/-- NoteMetadata.  The two TimeStamp fields are modelled as their integer
Unix-second values. -/
structure NoteMetadata where
  createdAt : Int
  tags : List String
  title : String
  updatedAt : Int
  uuid : String
deriving DecidableEq

/-- A cell of a note.  CellType is a string type in the source. -/
structure Cell where
  type : String
  language : String
  diagramType : String
  data : String
deriving DecidableEq

/-- NoteContent: the ordered cells of a note.  The Go field is []*Cell, so an
entry may be a nil pointer (a JSON null element), hence Option. -/
structure NoteContent where
  cells : List (Option Cell)
deriving DecidableEq

/-- NoteResource: file name, relative sub-path and raw byte payload (bytes as
naturals below 256). -/
structure NoteResource where
  name : String
  rel : String
  data : List Nat
deriving DecidableEq

/-- Note: metadata, content and resources.  ReadNote only ever produces
non-nil metadata and content pointers, so they are plain fields; a nil
resources slice is the empty list. -/
structure Note where
  noteMetadata : NoteMetadata
  noteContent : NoteContent
  resources : List NoteResource
deriving DecidableEq

/-- Notebook: the embedded *NotebookMetadata may be nil (no meta.json entry),
and the notes slice holds possibly-nil pointers. -/
structure Notebook where
  notebookMetadata : Option NotebookMetadata
  notes : List (Option Note)
deriving DecidableEq

/-- Library: the embedded *LibraryMetadata may be nil (no meta.json entry)
plus the notebooks in enumeration order. -/
structure Library where
  libraryMetadata : Option LibraryMetadata
  notebooks : List Notebook

/-- Store a JSON value into a string struct field, per encoding/json: a string
sets the field, null leaves it unchanged, anything else is a decode error. -/
def setStr (v : Json) (m : α) (upd : String → α) : Option α :=
  match v with
  | .null => some m
  | .str s => some (upd s)
  | _ => none

/-- Store a JSON value through the TimeStamp custom unmarshaler: the literal
is fed to json.Unmarshal with an int64 target, so only a plain integer
numeral succeeds; null leaves the fresh local at zero. -/
def setTime (v : Json) (upd : Int → α) : Option α :=
  match v with
  | .null => some (upd 0)
  | .num n true => some (upd n)
  | _ => none

/-- Decode a JSON value as an element of a []string, per encoding/json: null
leaves the zero element (empty string). -/
def elemString (v : Json) : Option String :=
  match v with
  | .null => some ""
  | .str s => some s
  | _ => none

/-- Decode a JSON array of strings. -/
def decodeStringList : List Json → Option (List String)
  | [] => some []
  | v :: rest =>
    match elemString v, decodeStringList rest with
    | some s, some l => some (s :: l)
    | _, _ => none

/-- Store a JSON value into a []string field: null zeroes the slice, an array
decodes element-wise, anything else is a decode error. -/
def setStrList (v : Json) (upd : List String → α) : Option α :=
  match v with
  | .null => some (upd [])
  | .arr xs => (decodeStringList xs).map upd
  | _ => none

/-- Decode into a NotebookMetadata, per encoding/json: the value must be an
object (or null, which leaves the fresh zero record); fields are matched
case-insensitively against the json tags; unknown keys are ignored; a field
of the wrong type is a decode error.  Go saves the first field error and
keeps scanning, but the call still reports failure, which the none result
models. -/
def decodeNotebookMetadataFields : List (String × Json) → NotebookMetadata →
    Option NotebookMetadata
  | [], m => some m
  | (k, v) :: rest, m =>
    if asciiLower k = "name" then
      match setStr v m (fun s => { m with name := s }) with
      | some m2 => decodeNotebookMetadataFields rest m2
      | none => none
    else if asciiLower k = "uuid" then
      match setStr v m (fun s => { m with uuid := s }) with
      | some m2 => decodeNotebookMetadataFields rest m2
      | none => none
    else decodeNotebookMetadataFields rest m

/-- Decode a JSON value into a NotebookMetadata. -/
def decodeNotebookMetadata : Json → Option NotebookMetadata
  | .null => some ⟨"", ""⟩
  | .obj fields => decodeNotebookMetadataFields fields ⟨"", ""⟩
  | _ => none

/-- Field loop for NoteMetadata (tags created_at, tags, title, updated_at,
uuid), same conventions as decodeNotebookMetadataFields. -/
def decodeNoteMetadataFields : List (String × Json) → NoteMetadata →
    Option NoteMetadata
  | [], m => some m
  | (k, v) :: rest, m =>
    if asciiLower k = "created_at" then
      match setTime v (fun n => { m with createdAt := n }) with
      | some m2 => decodeNoteMetadataFields rest m2
      | none => none
    else if asciiLower k = "tags" then
      match setStrList v (fun l => { m with tags := l }) with
      | some m2 => decodeNoteMetadataFields rest m2
      | none => none
    else if asciiLower k = "title" then
      match setStr v m (fun s => { m with title := s }) with
      | some m2 => decodeNoteMetadataFields rest m2
      | none => none
    else if asciiLower k = "updated_at" then
      match setTime v (fun n => { m with updatedAt := n }) with
      | some m2 => decodeNoteMetadataFields rest m2
      | none => none
    else if asciiLower k = "uuid" then
      match setStr v m (fun s => { m with uuid := s }) with
      | some m2 => decodeNoteMetadataFields rest m2
      | none => none
    else decodeNoteMetadataFields rest m

/-- Decode a JSON value into a NoteMetadata. -/
def decodeNoteMetadata : Json → Option NoteMetadata
  | .null => some ⟨0, [], "", 0, ""⟩
  | .obj fields => decodeNoteMetadataFields fields ⟨0, [], "", 0, ""⟩
  | _ => none

/-- Field loop for Cell (tags type, language, diagramType, data). -/
def decodeCellFields : List (String × Json) → Cell → Option Cell
  | [], m => some m
  | (k, v) :: rest, m =>
    if asciiLower k = "type" then
      match setStr v m (fun s => { m with type := s }) with
      | some m2 => decodeCellFields rest m2
      | none => none
    else if asciiLower k = "language" then
      match setStr v m (fun s => { m with language := s }) with
      | some m2 => decodeCellFields rest m2
      | none => none
    else if asciiLower k = "diagramtype" then
      match setStr v m (fun s => { m with diagramType := s }) with
      | some m2 => decodeCellFields rest m2
      | none => none
    else if asciiLower k = "data" then
      match setStr v m (fun s => { m with data := s }) with
      | some m2 => decodeCellFields rest m2
      | none => none
    else decodeCellFields rest m

/-- Decode a JSON value into one entry of a []*Cell: null is a nil pointer. -/
def decodeCellElem : Json → Option (Option Cell)
  | .null => some none
  | .obj fields => (decodeCellFields fields ⟨"", "", "", ""⟩).map some
  | _ => none

/-- Decode a JSON array into a []*Cell. -/
def decodeCellList : List Json → Option (List (Option Cell))
  | [] => some []
  | v :: rest =>
    match decodeCellElem v, decodeCellList rest with
    | some c, some l => some (c :: l)
    | _, _ => none

/-- Field loop for NoteContent (tag cells). -/
def decodeNoteContentFields : List (String × Json) → NoteContent →
    Option NoteContent
  | [], m => some m
  | (k, v) :: rest, m =>
    if asciiLower k = "cells" then
      match v with
      | .null => decodeNoteContentFields rest ⟨[]⟩
      | .arr xs =>
        match decodeCellList xs with
        | some cs => decodeNoteContentFields rest ⟨cs⟩
        | none => none
      | _ => none
    else decodeNoteContentFields rest m

/-- Decode a JSON value into a NoteContent. -/
def decodeNoteContent : Json → Option NoteContent
  | .null => some ⟨[]⟩
  | .obj fields => decodeNoteContentFields fields ⟨[]⟩
  | _ => none

mutual

/-- Decode a JSON value into one element of a []NotebookHierarchyInfo (a
struct element, so null leaves the zero record). -/
def decodeHierarchyElem : Json → Option NotebookHierarchyInfo
  | .null => some (.mk "" [])
  | .obj fields => decodeHierarchyFields fields (.mk "" [])
  | _ => none

/-- Field loop for NotebookHierarchyInfo (tags uuid, children). -/
def decodeHierarchyFields : List (String × Json) → NotebookHierarchyInfo →
    Option NotebookHierarchyInfo
  | [], m => some m
  | (k, v) :: rest, m =>
    if asciiLower k = "uuid" then
      match v with
      | .null => decodeHierarchyFields rest m
      | .str s => decodeHierarchyFields rest (.mk s m.children)
      | _ => none
    else if asciiLower k = "children" then
      match v with
      | .null => decodeHierarchyFields rest (.mk m.uuid [])
      | .arr xs =>
        match decodeHierarchyList xs with
        | some cs => decodeHierarchyFields rest (.mk m.uuid cs)
        | none => none
      | _ => none
    else decodeHierarchyFields rest m

/-- Decode a JSON array into a []NotebookHierarchyInfo. -/
def decodeHierarchyList : List Json → Option (List NotebookHierarchyInfo)
  | [] => some []
  | v :: rest =>
    match decodeHierarchyElem v, decodeHierarchyList rest with
    | some c, some l => some (c :: l)
    | _, _ => none

end

/-- Field loop for LibraryMetadata (tag children). -/
def decodeLibraryMetadataFields : List (String × Json) → LibraryMetadata →
    Option LibraryMetadata
  | [], m => some m
  | (k, v) :: rest, m =>
    if asciiLower k = "children" then
      match v with
      | .null => decodeLibraryMetadataFields rest ⟨[]⟩
      | .arr xs =>
        match decodeHierarchyList xs with
        | some cs => decodeLibraryMetadataFields rest ⟨cs⟩
        | none => none
      | _ => none
    else decodeLibraryMetadataFields rest m

/-- Decode a JSON value into a LibraryMetadata. -/
def decodeLibraryMetadata : Json → Option LibraryMetadata
  | .null => some ⟨[]⟩
  | .obj fields => decodeLibraryMetadataFields fields ⟨[]⟩
  | _ => none

/-- ParseLibraryMetadata: decode one JSON value from the stream into a
LibraryMetadata.  Every failure of the decode layer (syntax error, empty
stream, shape mismatch) is the MalformedJSON kind. -/
def ParseLibraryMetadata (s : String) : Except Err LibraryMetadata :=
  match parseJsonText s with
  | none => .error .malformedJSON
  | some v =>
    match decodeLibraryMetadata v with
    | none => .error .malformedJSON
    | some m => .ok m

/-- ParseNotebookMetadata: decode one JSON value into a NotebookMetadata. -/
def ParseNotebookMetadata (s : String) : Except Err NotebookMetadata :=
  match parseJsonText s with
  | none => .error .malformedJSON
  | some v =>
    match decodeNotebookMetadata v with
    | none => .error .malformedJSON
    | some m => .ok m

/-- ParseNoteMetadata: decode one JSON value into a NoteMetadata. -/
def ParseNoteMetadata (s : String) : Except Err NoteMetadata :=
  match parseJsonText s with
  | none => .error .malformedJSON
  | some v =>
    match decodeNoteMetadata v with
    | none => .error .malformedJSON
    | some m => .ok m

/-- ParseContent: decode one JSON value into a NoteContent. -/
def ParseContent (s : String) : Except Err NoteContent :=
  match parseJsonText s with
  | none => .error .malformedJSON
  | some v =>
    match decodeNoteContent v with
    | none => .error .malformedJSON
    | some m => .ok m

/-- strings.HasSuffix, over the character lists (byte-wise suffix test). -/
def goHasSuffix (s suffix : String) : Bool :=
  List.isSuffixOf suffix.data s.data

/-- strings.HasPrefix, over the character lists (byte-wise prefix test). -/
def goHasPrefix (s pre : String) : Bool :=
  List.isPrefixOf pre.data s.data

/-- filepath.Ext: the suffix of the name beginning at its final dot, or the
empty string when the name holds no dot. -/
def filepathExt (name : String) : String :=
  let ds := name.data
  let rec go : List Char → String → String
    | [], acc => acc
    | c :: rest, acc =>
      if c = '.' then go rest (String.mk ('.' :: rest))
      else go rest acc
  go ds ""

/-- mime.TypeByExtension, modelled as the fixed builtin table of the Go mime
package for the extensions that occur in this library format (the host
registry may extend it; unknown extensions give the empty string). -/
def mimeTypeByExtension (ext : String) : String :=
  if ext = ".gif" then "image/gif"
  else if ext = ".htm" then "text/html; charset=utf-8"
  else if ext = ".html" then "text/html; charset=utf-8"
  else if ext = ".jpeg" then "image/jpeg"
  else if ext = ".jpg" then "image/jpeg"
  else if ext = ".pdf" then "application/pdf"
  else if ext = ".png" then "image/png"
  else if ext = ".txt" then "text/plain; charset=utf-8"
  else ""

/-- The URL-safe base64 alphabet (RFC 4648). -/
def b64Char (n : Nat) : Char :=
  (("ABCDEFGHIJKLMNOPQRSTUVWXYZabcdefghijklmnopqrstuvwxyz0123456789-_").data.getD n 'A')

/-- base64.RawURLEncoding.EncodeToString: URL-safe alphabet, no padding. -/
def base64RawURLEncode : List Nat → String
  | [] => ""
  | [a] =>
    String.mk [b64Char (a / 4 % 64), b64Char (a % 4 * 16)]
  | [a, b] =>
    String.mk [b64Char (a / 4 % 64), b64Char (a % 4 * 16 + b / 16 % 16),
      b64Char (b % 16 * 4)]
  | a :: b :: c :: rest =>
    String.mk [b64Char (a / 4 % 64), b64Char (a % 4 * 16 + b / 16 % 16),
      b64Char (b % 16 * 4 + c / 64 % 4), b64Char (c % 64)] ++
      base64RawURLEncode rest

/-- Index of a character in the URL-safe base64 alphabet. -/
def b64Val (c : Char) : Option Nat :=
  if 65 ≤ c.toNat && c.toNat ≤ 90 then some (c.toNat - 65)
  else if 97 ≤ c.toNat && c.toNat ≤ 122 then some (c.toNat - 71)
  else if 48 ≤ c.toNat && c.toNat ≤ 57 then some (c.toNat + 4)
  else if c = '-' then some 62
  else if c = '_' then some 63
  else none

/-- base64.RawURLEncoding.DecodeString on the character list: groups of four
symbols give three bytes, a final group of two or three gives one or two
bytes, and a lone trailing symbol or a foreign character is an error. -/
def base64RawURLDecodeChars : List Char → Option (List Nat)
  | [] => some []
  | [_] => none
  | [a, b] =>
    match b64Val a, b64Val b with
    | some va, some vb => some [va * 4 + vb / 16]
    | _, _ => none
  | [a, b, c] =>
    match b64Val a, b64Val b, b64Val c with
    | some va, some vb, some vc => some [va * 4 + vb / 16, vb % 16 * 16 + vc / 4]
    | _, _, _ => none
  | a :: b :: c :: d :: rest =>
    match b64Val a, b64Val b, b64Val c, b64Val d, base64RawURLDecodeChars rest with
    | some va, some vb, some vc, some vd, some tail =>
      some ((va * 4 + vb / 16) :: (vb % 16 * 16 + vc / 4) :: (vc % 4 * 64 + vd) :: tail)
    | _, _, _, _, _ => none

/-- base64.RawURLEncoding.DecodeString. -/
def base64RawURLDecode (s : String) : Option (List Nat) :=
  base64RawURLDecodeChars s.data

/-- NoteResource.MarshalJSON: build the data URI from the extension-derived
MIME type and the unpadded URL-safe base64 payload, and emit the auxiliary
struct, whose untagged fields serialize under the keys Name and Data. -/
def NoteResource.marshalJSON (n : NoteResource) : Json :=
  let ext := filepathExt n.name
  let mimeType := mimeTypeByExtension ext
  let b64 := base64RawURLEncode n.data
  let url := "data:" ++ mimeType ++ "," ++ b64
  Json.obj [("Name", .str n.name), ("Data", .str url)]

/-- NoteResource.UnmarshalJSON.  The source passes the auxiliary struct aux to
json.Unmarshal by value instead of through a pointer, and encoding/json
rejects every non-pointer target with an InvalidUnmarshalError, so the first
statement fails for every input and the remainder of the body is dead code. -/
def NoteResource.unmarshalJSON (_data : Json) : Except Err NoteResource :=
  .error .invalidUnmarshal

/-- SplitN(s, ",", 2) on the character list: the piece before the first comma
and the rest, or the whole string when no comma occurs. -/
def splitOnComma : List Char → (List Char × Option (List Char))
  | [] => ([], none)
  | c :: rest =>
    if c = ',' then ([], some rest)
    else
      let p := splitOnComma rest
      (c :: p.1, p.2)

/-- The auxiliary struct of NoteResource.UnmarshalJSON (fields Name and URL). -/
structure ResourceAux where
  auxName : String
  auxURL : String

/-- Field loop for the auxiliary struct: its untagged fields match the keys
Name and URL (case-insensitively). -/
def decodeResourceAuxFields : List (String × Json) → ResourceAux → Option ResourceAux
  | [], m => some m
  | (k, v) :: rest, m =>
    if asciiLower k = "name" then
      match setStr v m (fun s => { m with auxName := s }) with
      | some m2 => decodeResourceAuxFields rest m2
      | none => none
    else if asciiLower k = "url" then
      match setStr v m (fun s => { m with auxURL := s }) with
      | some m2 => decodeResourceAuxFields rest m2
      | none => none
    else decodeResourceAuxFields rest m

/-- Decode a JSON value into the auxiliary struct. -/
def decodeResourceAux : Json → Option ResourceAux
  | .null => some ⟨"", ""⟩
  | .obj fields => decodeResourceAuxFields fields ⟨"", ""⟩
  | _ => none

/-- The body of NoteResource.UnmarshalJSON as it would execute had the source
passed a pointer to the auxiliary struct: decode the aux record, require the
data URI prefix and a comma separator, and base64-decode the payload.  This
definition exists to compare the intent of the dead code with the encoder:
the encoder emits the URI under the key Data, while this decoder reads the
key URL, so the URL field stays empty and the prefix check fails. -/
def NoteResource.unmarshalJSONPointerFixed (data : Json) : Except Err NoteResource :=
  match decodeResourceAux data with
  | none => .error .malformedJSON
  | some aux =>
    if (goHasPrefix aux.auxURL "data:") = false then .error (.invalidDataURI aux.auxURL)
    else
      match splitOnComma aux.auxURL.data with
      | (_, none) => .error (.invalidDataURI aux.auxURL)
      | (_, some payload) =>
        match base64RawURLDecodeChars payload with
        | none => .error .invalidEncoding
        | some bytes => .ok ⟨aux.auxName, "", bytes⟩

/-- A filesystem tree: a file with textual contents, or a directory with
named children in enumeration order. -/
inductive FSNode where
  | file (content : String)
  | dir (entries : List (String × FSNode))

/-- stat.IsDir. -/
def FSNode.isDir : FSNode → Bool
  | .file _ => false
  | .dir _ => true

/-- Look up a directory entry by name (the first match, as on a real
filesystem, where names are unique). -/
def lookupEntry : List (String × FSNode) → String → Option FSNode
  | [], _ => none
  | (n, node) :: rest, name => if n = name then some node else lookupEntry rest name

/-- The byte view of a file's textual contents (code points; faithful for the
ASCII payloads of this format). -/
def strBytes (s : String) : List Nat :=
  s.data.map Char.toNat

/-- Open a path expected to hold a file and return its contents: a missing
path is the os.Open *PathError, a directory fails once read. -/
def readFileAt (path : List String) (node : Option FSNode) : Except Err String :=
  match node with
  | none => .error (.notFound path)
  | some (.dir _) => .error (.notAFile path)
  | some (.file c) => .ok c

/-- ReadLibraryMetadata: open the library meta.json and parse it. -/
def ReadLibraryMetadata (path : List String) (node : Option FSNode) :
    Except Err LibraryMetadata :=
  match readFileAt path node with
  | .error e => .error e
  | .ok c => ParseLibraryMetadata c

/-- ReadNotebookMetadata: open the notebook meta.json and parse it. -/
def ReadNotebookMetadata (path : List String) (node : Option FSNode) :
    Except Err NotebookMetadata :=
  match readFileAt path node with
  | .error e => .error e
  | .ok c => ParseNotebookMetadata c

/-- ReadNoteMetadata: open the note meta.json and parse it. -/
def ReadNoteMetadata (path : List String) (node : Option FSNode) :
    Except Err NoteMetadata :=
  match readFileAt path node with
  | .error e => .error e
  | .ok c => ParseNoteMetadata c

/-- ReadNoteContent: open the note content.json and parse it. -/
def ReadNoteContent (path : List String) (node : Option FSNode) :
    Except Err NoteContent :=
  match readFileAt path node with
  | .error e => .error e
  | .ok c => ParseContent c

/-- IsLibrary: stat the path (not-found error carries the path), require a
directory, require the .qvlibrary suffix on the base name. -/
def IsLibrary (path : List String) (node : Option FSNode) : Except Err Bool :=
  match node with
  | none => .error (.notFound path)
  | some n =>
    if n.isDir = false then .error .notADirectory
    else if (goHasSuffix (baseName path) ".qvlibrary") = false then .error .wrongExtension
    else .ok true

/-- IsNotebook: same checks with the .qvnotebook suffix. -/
def IsNotebook (path : List String) (node : Option FSNode) : Except Err Bool :=
  match node with
  | none => .error (.notFound path)
  | some n =>
    if n.isDir = false then .error .notADirectory
    else if (goHasSuffix (baseName path) ".qvnotebook") = false then .error .wrongExtension
    else .ok true

/-- IsNote: same checks with the .qvnote suffix. -/
def IsNote (path : List String) (node : Option FSNode) : Except Err Bool :=
  match node with
  | none => .error (.notFound path)
  | some n =>
    if n.isDir = false then .error .notADirectory
    else if (goHasSuffix (baseName path) ".qvnote") = false then .error .wrongExtension
    else .ok true

mutual

/-- One entry of the recursive walk of ReadNoteResources: a file becomes a
resource carrying the rel of the directory holding it, a sub-directory is
recursed into with rel extended by its name.  The per-entry stats and reads
cannot fail on the modelled tree. -/
def collectResourcesNode (name rel : String) : FSNode → List NoteResource
  | .file content => [⟨name, rel, strBytes content⟩]
  | .dir sub => collectResources (goJoin rel name) sub

/-- The walk of ReadNoteResources over the entries of one directory, results
in enumeration order. -/
def collectResources (rel : String) : List (String × FSNode) → List NoteResource
  | [] => []
  | (name, node) :: rest => collectResourcesNode name rel node ++ collectResources rel rest

end

/-- ReadNoteResources: stat the root (missing root is the not-found error the
caller tolerates), require a directory, then walk it. -/
def ReadNoteResources (path : List String) (node : Option FSNode) (rel : String) :
    Except Err (List NoteResource) :=
  match node with
  | none => .error (.notFound path)
  | some (.file _) => .error .notADirectory
  | some (.dir entries) => .ok (collectResources rel entries)

/-- ReadNote: validate the role, read and parse meta.json and content.json
(both required), and, when requested, load the resources sub-directory,
tolerating only its absence. -/
def ReadNote (path : List String) (node : Option FSNode) (loadResources : Bool) :
    Except Err Note :=
  match IsNote path node with
  | .error e => .error e
  | .ok _ =>
    match node with
    | some (.dir entries) =>
      match ReadNoteMetadata (path ++ ["meta.json"]) (lookupEntry entries "meta.json") with
      | .error e => .error e
      | .ok m =>
        match ReadNoteContent (path ++ ["content.json"]) (lookupEntry entries "content.json") with
        | .error e => .error e
        | .ok c =>
          if loadResources then
            match ReadNoteResources (path ++ ["resources"]) (lookupEntry entries "resources") "" with
            | .error e => if e.isNotFound then .ok ⟨m, c, []⟩ else .error e
            | .ok res => .ok ⟨m, c, res⟩
          else .ok ⟨m, c, []⟩
    | _ => .error .notADirectory

/-- Write a list element at an index: none exactly when the index is out of
bounds, where the Go slice write panics. -/
def listSet : List α → Nat → α → Option (List α)
  | [], _, _ => none
  | _ :: xs, 0, a => some (a :: xs)
  | x :: xs, n + 1, a => (listSet xs n a).map (fun l => x :: l)

/-- The loop of ReadNotebook: the entry named meta.json is parsed as the
notebook metadata, every other entry is loaded as a note and written into
the pre-allocated slice at the raw enumeration index i. -/
def readNotebookLoop (path : List String) (loadResources : Bool) :
    List (String × FSNode) → Nat → Option NotebookMetadata → List (Option Note) →
    Except Err (Option NotebookMetadata × List (Option Note))
  | [], _, metadata, notes => .ok (metadata, notes)
  | (name, child) :: rest, i, metadata, notes =>
    if name = "meta.json" then
      match ReadNotebookMetadata (path ++ [name]) (some child) with
      | .error e => .error e
      | .ok m => readNotebookLoop path loadResources rest (i + 1) (some m) notes
    else
      match ReadNote (path ++ [name]) (some child) loadResources with
      | .error e => .error e
      | .ok n =>
        match listSet notes i (some n) with
        | none => .error .indexOutOfRange
        | some notes2 => readNotebookLoop path loadResources rest (i + 1) metadata notes2

/-- ReadNotebook: validate the role, enumerate the children, pre-allocate the
notes slice with len(files)-1 slots (when more than one entry exists) and run
the loop. -/
def ReadNotebook (path : List String) (node : Option FSNode) (loadResources : Bool) :
    Except Err Notebook :=
  match IsNotebook path node with
  | .error e => .error e
  | .ok _ =>
    match node with
    | some (.dir files) =>
      let numNotes := if files.length > 1 then files.length - 1 else 0
      match readNotebookLoop path loadResources files 0 none (List.replicate numNotes none) with
      | .error e => .error e
      | .ok (metadata, notes) => .ok ⟨metadata, notes⟩
    | _ => .error .notADirectory

/-- The loop of ReadLibrary: the entry named meta.json is parsed as the
library metadata, every other entry is loaded as a notebook and appended. -/
def readLibraryLoop (path : List String) (loadResources : Bool) :
    List (String × FSNode) → Option LibraryMetadata → List Notebook →
    Except Err (Option LibraryMetadata × List Notebook)
  | [], metadata, notebooks => .ok (metadata, notebooks)
  | (name, child) :: rest, metadata, notebooks =>
    if name = "meta.json" then
      match ReadLibraryMetadata (path ++ [name]) (some child) with
      | .error e => .error e
      | .ok m => readLibraryLoop path loadResources rest (some m) notebooks
    else
      match ReadNotebook (path ++ [name]) (some child) loadResources with
      | .error e => .error e
      | .ok n => readLibraryLoop path loadResources rest metadata (notebooks ++ [n])

/-- ReadLibrary: validate the role, enumerate the children, run the loop and
assemble the Library. -/
def ReadLibrary (path : List String) (node : Option FSNode) (loadResources : Bool) :
    Except Err Library :=
  match IsLibrary path node with
  | .error e => .error e
  | .ok _ =>
    match node with
    | some (.dir files) =>
      match readLibraryLoop path loadResources files none [] with
      | .error e => .error e
      | .ok (metadata, notebooks) => .ok ⟨metadata, notebooks⟩
    | _ => .error .notADirectory

mutual

/-- The recursive helper walkNotebooksHierarchy: visit the node, then, when
children exist, visit each child in declared order with the parent chain
extended by this node's UUID, stopping at the first visitor error.  The Go
code extends the chain with append on an aliased slice; every write lands
beyond the slice lengths still observable, so the pure list append has the
same behaviour. -/
def walkNotebooksHierarchy (n : NotebookHierarchyInfo) (parents : List String)
    (f : String → List String → Except E Unit) : Except E Unit :=
  match n with
  | .mk u children =>
    match f u parents with
    | .error e => .error e
    | .ok _ =>
      if children.length > 0 then
        walkNotebooksHierarchyList children (parents ++ [u]) f
      else .ok ()

/-- The loop over a list of hierarchy nodes, stopping at the first error. -/
def walkNotebooksHierarchyList (l : List NotebookHierarchyInfo) (parents : List String)
    (f : String → List String → Except E Unit) : Except E Unit :=
  match l with
  | [] => .ok ()
  | c :: rest =>
    match walkNotebooksHierarchy c parents f with
    | .error e => .error e
    | .ok _ => walkNotebooksHierarchyList rest parents f

end

/-- The uuid-to-notebook pairs inserted into the walker's map, in insertion
order.  Go dereferences each notebook's embedded metadata pointer for its
UUID, so a notebook with nil metadata makes the walker fail at run time,
modelled by none. -/
def notebookPairs : List Notebook → Option (List (String × Notebook))
  | [] => some []
  | nb :: rest =>
    match nb.notebookMetadata with
    | none => none
    | some m =>
      match notebookPairs rest with
      | none => none
      | some l => some ((m.uuid, nb) :: l)

/-- Lookup in the walker's map: a later insertion of the same key overwrites
an earlier one, and a missing key yields the zero value, a nil pointer. -/
def mapGet (pairs : List (String × Notebook)) (u : String) : Option Notebook :=
  pairs.foldl (fun acc kv => if kv.1 = u then some kv.2 else acc) none

/-- Library.WalkNotebooksHierarchy: index the flat notebooks by UUID, then
walk the declared forest, resolving each visited UUID and each ancestor UUID
through the index.  The result is none when the method hits a nil pointer at
run time (nil embedded LibraryMetadata, or a notebook with nil metadata when
the index is built). -/
def Library.WalkNotebooksHierarchy (lib : Library)
    (f : Option Notebook → List (Option Notebook) → Except E Unit) :
    Option (Except E Unit) :=
  match lib.libraryMetadata with
  | none => none
  | some md =>
    match notebookPairs lib.notebooks with
    | none => none
    | some pairs =>
      some (walkNotebooksHierarchyList md.children []
        (fun c parents => f (mapGet pairs c) (parents.map (fun p => mapGet pairs p))))

mutual

/-- The visits a pre-order traversal of one declared node performs: the node
itself with its root-first ancestor chain, then its children's visits with
the chain extended. -/
def preorderVisits (n : NotebookHierarchyInfo) (parents : List String) :
    List (String × List String) :=
  match n with
  | .mk u children => (u, parents) :: preorderVisitsList children (parents ++ [u])

/-- The visits of a forest of declared nodes, in declared order. -/
def preorderVisitsList (l : List NotebookHierarchyInfo) (parents : List String) :
    List (String × List String) :=
  match l with
  | [] => []
  | c :: rest => preorderVisits c parents ++ preorderVisitsList rest parents

end

/-- Run a visitor over a list of visits left to right, stopping at the first
error, which is returned unchanged. -/
def runVisits (f : String → List String → Except E Unit) :
    List (String × List String) → Except E Unit
  | [] => .ok ()
  | (u, ps) :: rest =>
    match f u ps with
    | .error e => .error e
    | .ok _ => runVisits f rest

/-- Load a list of directory entries as notes, left to right, propagating the
first failure: the reference loading ReadNotebook performs on its non-meta
entries. -/
def LoadNotes (path : List String) (loadResources : Bool) :
    List (String × FSNode) → Except Err (List Note)
  | [] => .ok []
  | (name, child) :: rest =>
    match ReadNote (path ++ [name]) (some child) loadResources with
    | .error e => .error e
    | .ok n =>
      match LoadNotes path loadResources rest with
      | .error e => .error e
      | .ok l => .ok (n :: l)

/-- Load a list of directory entries as notebooks, left to right, propagating
the first failure: the reference loading ReadLibrary performs on its non-meta
entries. -/
def LoadNotebooks (path : List String) (loadResources : Bool) :
    List (String × FSNode) → Except Err (List Notebook)
  | [] => .ok []
  | (name, child) :: rest =>
    match ReadNotebook (path ++ [name]) (some child) loadResources with
    | .error e => .error e
    | .ok n =>
      match LoadNotebooks path loadResources rest with
      | .error e => .error e
      | .ok l => .ok (n :: l)

/-
Concrete fixtures used by witnesses and counterexamples: a small library of
well-formed notes, notebooks and metadata files.
-/

/-- A well-formed note meta.json text. -/
def fixNoteMetaTextA : String :=
  "\x7b\"created_at\":1,\"tags\":[],\"title\":\"A\",\"updated_at\":2,\"uuid\":\"N1\"\x7d"

/-- A well-formed note content.json text with no cells. -/
def fixNoteContentTextA : String := "\x7b\"cells\":[]\x7d"

/-- The entries of a well-formed note directory. -/
def fixNoteEntriesA : List (String × FSNode) :=
  [("content.json", .file fixNoteContentTextA), ("meta.json", .file fixNoteMetaTextA)]

/-- A well-formed note directory. -/
def fixNoteDirA : FSNode := .dir fixNoteEntriesA

/-- The Note the fixture note directory loads to. -/
def fixNoteRecA : Note := ⟨⟨1, [], "A", 2, "N1"⟩, ⟨[]⟩, []⟩

/-- A second note meta.json text. -/
def fixNoteMetaTextB : String :=
  "\x7b\"created_at\":3,\"tags\":[\"t\"],\"title\":\"B\",\"updated_at\":4,\"uuid\":\"N2\"\x7d"

/-- A second note content.json text, holding one nil cell. -/
def fixNoteContentTextB : String := "\x7b\"cells\":[null]\x7d"

/-- A second well-formed note directory. -/
def fixNoteDirB : FSNode :=
  .dir [("content.json", .file fixNoteContentTextB), ("meta.json", .file fixNoteMetaTextB)]

/-- The Note the second fixture note directory loads to. -/
def fixNoteRecB : Note := ⟨⟨3, ["t"], "B", 4, "N2"⟩, ⟨[none]⟩, []⟩

/-- The entries of a note directory whose content.json is syntactically
malformed. -/
def fixBadContentEntries : List (String × FSNode) :=
  [("content.json", .file "\x7bbroken"), ("meta.json", .file fixNoteMetaTextA)]

/-- A well-formed notebook meta.json text. -/
def fixNbMetaTextA : String := "\x7b\"name\":\"NB\",\"uuid\":\"U1\"\x7d"

/-- A second notebook meta.json text. -/
def fixNbMetaTextB : String := "\x7b\"name\":\"NB2\",\"uuid\":\"U2\"\x7d"

/-- A well-formed notebook directory whose meta.json is enumerated last. -/
def fixNbDirA : FSNode :=
  .dir [("z.qvnote", fixNoteDirA), ("meta.json", .file fixNbMetaTextA)]

/-- The Notebook the fixture notebook directory loads to. -/
def fixNbRecA : Notebook := ⟨some ⟨"NB", "U1"⟩, [some fixNoteRecA]⟩

/-- A second well-formed notebook directory. -/
def fixNbDirB : FSNode :=
  .dir [("x.qvnote", fixNoteDirB), ("meta.json", .file fixNbMetaTextB)]

/-- The Notebook the second fixture notebook directory loads to. -/
def fixNbRecB : Notebook := ⟨some ⟨"NB2", "U2"⟩, [some fixNoteRecB]⟩

/-- A well-formed library meta.json text declaring one root. -/
def fixLibMetaTextA : String :=
  "\x7b\"children\":[\x7b\"uuid\":\"U1\",\"children\":[]\x7d]\x7d"

/-- A well-formed library directory. -/
def fixLibDirA : FSNode :=
  .dir [("meta.json", .file fixLibMetaTextA), ("n.qvnotebook", fixNbDirA)]

/-- The Library the fixture library directory loads to. -/
def fixLibRecA : Library := ⟨some ⟨[.mk "U1" []]⟩, [fixNbRecA]⟩

/-- A library directory whose only notebook holds a syntactically malformed
meta.json. -/
def fixBadLibDir : FSNode :=
  .dir [("B.qvnotebook", .dir [("meta.json", .file "\x7bnot json")])]

/-- A declared hierarchy for the walker fixture: two roots with one child
each. -/
def fixWalkMd : LibraryMetadata :=
  ⟨[.mk "A" [.mk "A1" []], .mk "B" [.mk "B1" []]]⟩

/-- A library fixture for the hierarchy walker: two declared roots with one
child each, and the two root notebooks present. -/
def fixWalkLib : Library :=
  ⟨some fixWalkMd, [⟨some ⟨"Aname", "A"⟩, []⟩, ⟨some ⟨"Bname", "B"⟩, []⟩]⟩

/-- The uuid index of the walker fixture. -/
def fixWalkPairs : List (String × Notebook) :=
  [("A", ⟨some ⟨"Aname", "A"⟩, []⟩), ("B", ⟨some ⟨"Bname", "B"⟩, []⟩)]

/-- A visitor that accepts every node. -/
def fixVisitorOk : Option Notebook → List (Option Notebook) → Except String Unit :=
  fun _ _ => .ok ()

/-- A declared hierarchy holding the single root UUID X. -/
def fixDangleMd : LibraryMetadata :=
  ⟨[.mk "X" []]⟩

/-- A library whose declared hierarchy references the UUID X although no
notebook carries it. -/
def fixDangleLib : Library :=
  ⟨some fixDangleMd, [⟨some ⟨"n", "A"⟩, []⟩]⟩

/-- The uuid index of the dangling-UUID fixture. -/
def fixDanglePairs : List (String × Notebook) :=
  [("A", ⟨some ⟨"n", "A"⟩, []⟩)]

/-
Theorems.  First the claim theorems that need no loop machinery, then the
helper lemmas for the loader loops and the walker, then the remaining
claims.
-/

/-- C1: the claim demands that unmarshalling the output of
NoteResource.MarshalJSON recovers the payload, but UnmarshalJSON hands a
non-pointer to json.Unmarshal, so it fails with InvalidUnmarshalError on
every input; and even the body behind that faulty call could never succeed,
because the encoder stores the URI under the key Data while the decoder
reads the key URL, leaving an empty URL that fails the data: prefix check.
The third conjunct evaluates the encoder at a concrete resource (name
hello.txt, payload the bytes of hi). -/
theorem noteResource_roundtrip_never_succeeds (r : NoteResource) :
    NoteResource.unmarshalJSON (NoteResource.marshalJSON r) = .error .invalidUnmarshal ∧
    NoteResource.unmarshalJSONPointerFixed (NoteResource.marshalJSON r) =
      .error (.invalidDataURI "") ∧
    NoteResource.marshalJSON ⟨"hello.txt", "", [104, 105]⟩ =
      Json.obj [("Name", .str "hello.txt"),
        ("Data", .str "data:text/plain; charset=utf-8,aGk")] :=
  ⟨rfl, rfl, rfl⟩

/-- C4 (counterexample): the claim says the parsers fail with MalformedJSON
when a required field is missing, but decoding an object that lacks the name
field succeeds with the zero value for it. -/
theorem parsers_accept_missing_fields :
    ParseNotebookMetadata "\x7b\"uuid\":\"X\"\x7d" = .ok ⟨"", "X"⟩ :=
  rfl

/-- C4 (amended): the four parsers fail with the MalformedJSON kind on JSON
syntax errors and on shape mismatches of present fields (a non-object
document, a field of the wrong primitive type); a missing field is not an
error, the field keeps its zero value; unknown extra fields are ignored. -/
theorem entity_parsers_error_model :
    (∀ s, parseJsonText s = none →
      ParseLibraryMetadata s = .error .malformedJSON ∧
      ParseNotebookMetadata s = .error .malformedJSON ∧
      ParseNoteMetadata s = .error .malformedJSON ∧
      ParseContent s = .error .malformedJSON) ∧
    (∀ m rest n b, decodeNotebookMetadataFields (("name", Json.num n b) :: rest) m = none) ∧
    (∀ m rest s, decodeNoteMetadataFields (("created_at", Json.str s) :: rest) m = none) ∧
    (∀ n b, decodeNotebookMetadata (Json.num n b) = none) ∧
    (∀ s, decodeNoteContent (Json.str s) = none) ∧
    (∀ k v fields m, ¬(asciiLower k = "name") → ¬(asciiLower k = "uuid") →
      decodeNotebookMetadataFields ((k, v) :: fields) m =
        decodeNotebookMetadataFields fields m) ∧
    (∀ k v fields m, ¬(asciiLower k = "created_at") → ¬(asciiLower k = "tags") →
      ¬(asciiLower k = "title") → ¬(asciiLower k = "updated_at") →
      ¬(asciiLower k = "uuid") →
      decodeNoteMetadataFields ((k, v) :: fields) m = decodeNoteMetadataFields fields m) ∧
    ParseLibraryMetadata "\x7b\x7d" = .ok ⟨[]⟩ ∧
    ParseNotebookMetadata "\x7b\x7d" = .ok ⟨"", ""⟩ ∧
    ParseNoteMetadata "\x7b\x7d" = .ok ⟨0, [], "", 0, ""⟩ ∧
    ParseContent "\x7b\x7d" = .ok ⟨[]⟩ := by
  refine ⟨?_, fun m rest n b => rfl, fun m rest s => rfl, fun n b => rfl, fun s => rfl,
    ?_, ?_, rfl, rfl, rfl, rfl⟩
  · intro s h
    refine ⟨?_, ?_, ?_, ?_⟩ <;>
      simp [ParseLibraryMetadata, ParseNotebookMetadata, ParseNoteMetadata, ParseContent, h]
  · intro k v fields m h1 h2
    simp [decodeNotebookMetadataFields, h1, h2]
  · intro k v fields m h1 h2 h3 h4 h5
    simp [decodeNoteMetadataFields, h1, h2, h3, h4, h5]

/-- C4 (witness): the amended theorem applied at concrete inputs: the
truncated document emits MalformedJSON and a document holding only an
unknown field decodes like the empty object. -/
theorem entity_parsers_error_model_witness :
    ParseNotebookMetadata "[" = .error .malformedJSON ∧
    decodeNotebookMetadataFields [("extra", Json.bool true)] ⟨"", ""⟩ =
      decodeNotebookMetadataFields [] ⟨"", ""⟩ :=
  ⟨(entity_parsers_error_model.1 "[" rfl).2.1,
    entity_parsers_error_model.2.2.2.2.2.1 "extra" (Json.bool true) [] ⟨"", ""⟩
      (by decide) (by decide)⟩

/-- C5: each validator yields the not-found error of the stat when the path
is absent, the not-a-directory error when it names a file, the
wrong-extension error when the suffix check on the base name fails, and true
with no error otherwise; and ReadLibrary propagates an IsLibrary failure
unchanged. -/
theorem validators_error_kinds (path : List String) (node : Option FSNode) :
    (node = none →
      IsLibrary path node = .error (.notFound path) ∧
      IsNotebook path node = .error (.notFound path) ∧
      IsNote path node = .error (.notFound path)) ∧
    (∀ c, node = some (.file c) →
      IsLibrary path node = .error .notADirectory ∧
      IsNotebook path node = .error .notADirectory ∧
      IsNote path node = .error .notADirectory) ∧
    (∀ es, node = some (.dir es) →
      ((goHasSuffix (baseName path) ".qvlibrary") = false →
        IsLibrary path node = .error .wrongExtension) ∧
      ((goHasSuffix (baseName path) ".qvlibrary") = true →
        IsLibrary path node = .ok true) ∧
      ((goHasSuffix (baseName path) ".qvnotebook") = false →
        IsNotebook path node = .error .wrongExtension) ∧
      ((goHasSuffix (baseName path) ".qvnotebook") = true →
        IsNotebook path node = .ok true) ∧
      ((goHasSuffix (baseName path) ".qvnote") = false →
        IsNote path node = .error .wrongExtension) ∧
      ((goHasSuffix (baseName path) ".qvnote") = true →
        IsNote path node = .ok true)) ∧
    (∀ e b, IsLibrary path node = .error e → ReadLibrary path node b = .error e) := by
  refine ⟨?_, ?_, ?_, ?_⟩
  · intro h
    subst h
    exact ⟨rfl, rfl, rfl⟩
  · intro c h
    subst h
    exact ⟨rfl, rfl, rfl⟩
  · intro es h
    subst h
    refine ⟨?_, ?_, ?_, ?_, ?_, ?_⟩ <;> intro hs <;>
      simp [IsLibrary, IsNotebook, IsNote, FSNode.isDir, hs]
  · intro e b h
    simp [ReadLibrary, h]

/-- C5 (witness): the theorem applied at a missing path, at a file path with
the library suffix, and at a directory path lacking it. -/
theorem validators_error_kinds_witness :
    IsLibrary ["a.qvlibrary"] none = .error (.notFound ["a.qvlibrary"]) ∧
    IsNotebook ["b.qvnotebook"] (some (.file "x")) = .error .notADirectory ∧
    IsNote ["c"] (some (.dir [])) = .error .wrongExtension ∧
    ReadLibrary ["c"] (some (.dir [])) true = .error .wrongExtension :=
  ⟨((validators_error_kinds ["a.qvlibrary"] none).1 rfl).1,
    ((validators_error_kinds ["b.qvnotebook"] (some (.file "x"))).2.1 "x" rfl).2.1,
    (((validators_error_kinds ["c"] (some (.dir []))).2.2.1 [] rfl).2.2.2.2.1 (by decide)),
    ((validators_error_kinds ["c"] (some (.dir []))).2.2.2 .wrongExtension true
      (((validators_error_kinds ["c"] (some (.dir []))).2.2.1 [] rfl).2.2.2.2.1 (by decide)))⟩

/-- C6: ReadNote requires both meta.json and content.json: a missing file
yields the open error, a parse failure of either file propagates, and no
partial note is produced; with resources requested, a missing resources
directory loads as zero resources, a resources entry that is not a directory
fails, and a resources directory loads its tree. -/
theorem readNote_required_files (path : List String) (entries : List (String × FSNode))
    (b : Bool) (hsuf : (goHasSuffix (baseName path) ".qvnote") = true) :
    (lookupEntry entries "meta.json" = none →
      ReadNote path (some (.dir entries)) b = .error (.notFound (path ++ ["meta.json"]))) ∧
    (∀ ms, lookupEntry entries "meta.json" = some (.file ms) →
      ParseNoteMetadata ms = .error .malformedJSON →
      ReadNote path (some (.dir entries)) b = .error .malformedJSON) ∧
    (∀ ms m, lookupEntry entries "meta.json" = some (.file ms) →
      ParseNoteMetadata ms = .ok m →
      lookupEntry entries "content.json" = none →
      ReadNote path (some (.dir entries)) b = .error (.notFound (path ++ ["content.json"]))) ∧
    (∀ ms m cs, lookupEntry entries "meta.json" = some (.file ms) →
      ParseNoteMetadata ms = .ok m →
      lookupEntry entries "content.json" = some (.file cs) →
      ParseContent cs = .error .malformedJSON →
      ReadNote path (some (.dir entries)) b = .error .malformedJSON) ∧
    (∀ ms m cs c, lookupEntry entries "meta.json" = some (.file ms) →
      ParseNoteMetadata ms = .ok m →
      lookupEntry entries "content.json" = some (.file cs) →
      ParseContent cs = .ok c →
      (lookupEntry entries "resources" = none →
        ReadNote path (some (.dir entries)) true = .ok ⟨m, c, []⟩) ∧
      (∀ rs, lookupEntry entries "resources" = some (.file rs) →
        ReadNote path (some (.dir entries)) true = .error .notADirectory) ∧
      (∀ res, lookupEntry entries "resources" = some (.dir res) →
        ReadNote path (some (.dir entries)) true = .ok ⟨m, c, collectResources "" res⟩)) := by
  refine ⟨?_, ?_, ?_, ?_, ?_⟩
  · intro h
    simp [ReadNote, IsNote, FSNode.isDir, hsuf, ReadNoteMetadata, readFileAt, h]
  · intro ms h hp
    simp [ReadNote, IsNote, FSNode.isDir, hsuf, ReadNoteMetadata, readFileAt, h, hp]
  · intro ms m h hp h2
    simp [ReadNote, IsNote, FSNode.isDir, hsuf, ReadNoteMetadata, ReadNoteContent,
      readFileAt, h, hp, h2]
  · intro ms m cs h hp h2 hc
    simp [ReadNote, IsNote, FSNode.isDir, hsuf, ReadNoteMetadata, ReadNoteContent,
      readFileAt, h, hp, h2, hc]
  · intro ms m cs c h hp h2 hc
    refine ⟨?_, ?_, ?_⟩
    · intro hr
      simp [ReadNote, IsNote, FSNode.isDir, hsuf, ReadNoteMetadata, ReadNoteContent,
        readFileAt, h, hp, h2, hc, ReadNoteResources, hr, Err.isNotFound]
    · intro rs hr
      simp [ReadNote, IsNote, FSNode.isDir, hsuf, ReadNoteMetadata, ReadNoteContent,
        readFileAt, h, hp, h2, hc, ReadNoteResources, hr, Err.isNotFound]
    · intro res hr
      simp [ReadNote, IsNote, FSNode.isDir, hsuf, ReadNoteMetadata, ReadNoteContent,
        readFileAt, h, hp, h2, hc, ReadNoteResources, hr]

/-- C6 (witness): the theorem applied at the fixture note, which lacks a
resources directory, loading with resources requested; and at a note whose
content.json is present but malformed, whose load fails. -/
theorem readNote_required_files_witness :
    ReadNote ["t.qvnote"] (some (.dir fixNoteEntriesA)) true =
      .ok ⟨⟨1, [], "A", 2, "N1"⟩, ⟨[]⟩, []⟩ ∧
    ReadNote ["u.qvnote"] (some (.dir fixBadContentEntries)) false =
      .error .malformedJSON :=
  ⟨((readNote_required_files ["t.qvnote"] fixNoteEntriesA true rfl).2.2.2.2
      fixNoteMetaTextA ⟨1, [], "A", 2, "N1"⟩ fixNoteContentTextA ⟨[]⟩
      rfl rfl rfl rfl).1 rfl,
    (readNote_required_files ["u.qvnote"] fixBadContentEntries false rfl).2.2.2.1
      fixNoteMetaTextA ⟨1, [], "A", 2, "N1"⟩ "\x7bbroken" rfl rfl rfl rfl⟩

/-- Writing just past a prefix of known length succeeds and produces the
obvious list. -/
theorem listSet_append (done : List α) (y : α) (tail : List α) (a : α) :
    listSet (done ++ y :: tail) done.length a = some (done ++ a :: tail) := by
  induction done with
  | nil => rfl
  | cons x xs ih => simp [listSet, ih]

/-- Every ParseNoteMetadata failure is the MalformedJSON kind. -/
theorem ParseNoteMetadata_error_eq (s : String) (e : Err)
    (h : ParseNoteMetadata s = .error e) : e = .malformedJSON := by
  unfold ParseNoteMetadata at h
  cases hp : parseJsonText s with
  | none => simp [hp] at h; exact h.symm
  | some v =>
    simp only [hp] at h
    cases hd : decodeNoteMetadata v with
    | none => simp [hd] at h; exact h.symm
    | some m => simp [hd] at h

/-- Every ParseContent failure is the MalformedJSON kind. -/
theorem ParseContent_error_eq (s : String) (e : Err)
    (h : ParseContent s = .error e) : e = .malformedJSON := by
  unfold ParseContent at h
  cases hp : parseJsonText s with
  | none => simp [hp] at h; exact h.symm
  | some v =>
    simp only [hp] at h
    cases hd : decodeNoteContent v with
    | none => simp [hd] at h; exact h.symm
    | some m => simp [hd] at h

/-- Every ParseNotebookMetadata failure is the MalformedJSON kind. -/
theorem ParseNotebookMetadata_error_eq (s : String) (e : Err)
    (h : ParseNotebookMetadata s = .error e) : e = .malformedJSON := by
  unfold ParseNotebookMetadata at h
  cases hp : parseJsonText s with
  | none => simp [hp] at h; exact h.symm
  | some v =>
    simp only [hp] at h
    cases hd : decodeNotebookMetadata v with
    | none => simp [hd] at h; exact h.symm
    | some m => simp [hd] at h

/-- ReadNotebookMetadata never reports the out-of-range panic. -/
theorem ReadNotebookMetadata_no_oob (p : List String) (n : Option FSNode) :
    ReadNotebookMetadata p n ≠ .error .indexOutOfRange := by
  unfold ReadNotebookMetadata
  cases n with
  | none => simp [readFileAt]
  | some node =>
    cases node with
    | dir es => simp [readFileAt]
    | file c =>
      simp only [readFileAt]
      intro h
      exact absurd (ParseNotebookMetadata_error_eq c _ h) (by simp)

/-- ReadNote never reports the out-of-range panic: every error it returns
comes from a stat, an open, a parse or the resources walk. -/
theorem ReadNote_no_oob (p : List String) (n : Option FSNode) (b : Bool) :
    ReadNote p n b ≠ .error .indexOutOfRange := by
  unfold ReadNote
  cases n with
  | none => simp [IsNote]
  | some node =>
    cases node with
    | file c => simp [IsNote, FSNode.isDir]
    | dir entries =>
      simp only [IsNote, FSNode.isDir]
      by_cases hs : (goHasSuffix (baseName p) ".qvnote") = true
      · simp only [hs]
        simp only [Bool.true_eq_false, if_false, if_neg]
        cases hm : ReadNoteMetadata (p ++ ["meta.json"]) (lookupEntry entries "meta.json") with
        | error e =>
          unfold ReadNoteMetadata at hm
          cases hl : lookupEntry entries "meta.json" with
          | none =>
            rw [hl] at hm
            simp [readFileAt] at hm
            simp [hm.symm]
          | some nn =>
            rw [hl] at hm
            cases nn with
            | dir es => simp [readFileAt] at hm; simp [hm.symm]
            | file c =>
              simp only [readFileAt] at hm
              have := ParseNoteMetadata_error_eq c e hm
              subst this
              simp
        | ok m =>
          simp only [hm]
          cases hc : ReadNoteContent (p ++ ["content.json"]) (lookupEntry entries "content.json") with
          | error e =>
            unfold ReadNoteContent at hc
            cases hl : lookupEntry entries "content.json" with
            | none =>
              rw [hl] at hc
              simp [readFileAt] at hc
              simp [hc.symm]
            | some nn =>
              rw [hl] at hc
              cases nn with
              | dir es => simp [readFileAt] at hc; simp [hc.symm]
              | file cc =>
                simp only [readFileAt] at hc
                have := ParseContent_error_eq cc e hc
                subst this
                simp
          | ok c =>
            simp only [hc]
            cases b with
            | false => simp
            | true =>
              simp only []
              cases hr : ReadNoteResources (p ++ ["resources"]) (lookupEntry entries "resources") "" with
              | ok res => simp
              | error e =>
                unfold ReadNoteResources at hr
                cases hl : lookupEntry entries "resources" with
                | none =>
                  rw [hl] at hr
                  simp at hr
                  simp [hr.symm, Err.isNotFound]
                | some nn =>
                  rw [hl] at hr
                  cases nn with
                  | file cc => simp at hr; simp [hr.symm, Err.isNotFound]
                  | dir es => simp at hr
      · simp [hs]

/-- The notebook loop with the meta.json entry last: with every earlier entry
loading as a note, the loop fills the remaining slots in order and installs
the parsed metadata; a metadata failure propagates. -/
theorem readNotebookLoop_meta_last (path : List String) (b : Bool) (mn : FSNode)
    (nf : List (String × FSNode)) :
    ∀ (done : List (Option Note)) (md0 : Option NotebookMetadata) (notes : List Note),
    (∀ e ∈ nf, ¬(e.1 = "meta.json")) →
    LoadNotes path b nf = .ok notes →
    readNotebookLoop path b (nf ++ [("meta.json", mn)]) done.length md0
        (done ++ List.replicate nf.length none) =
      match ReadNotebookMetadata (path ++ ["meta.json"]) (some mn) with
      | .error e => .error e
      | .ok m => .ok (some m, done ++ notes.map some) := by
  induction nf with
  | nil =>
    intro done md0 notes _ hload
    simp only [LoadNotes] at hload
    cases hload
    simp only [List.nil_append, List.length_nil, List.replicate_zero, List.append_nil]
    simp only [readNotebookLoop, if_pos rfl]
    cases hm : ReadNotebookMetadata (path ++ ["meta.json"]) (some mn) with
    | error e => simp
    | ok m => simp [readNotebookLoop]
  | cons hd nf ih =>
    intro done md0 notes hnames hload
    obtain ⟨name, child⟩ := hd
    have hname : ¬(name = "meta.json") := hnames (name, child) (List.mem_cons_self _ _)
    simp only [LoadNotes] at hload
    cases hn : ReadNote (path ++ [name]) (some child) b with
    | error e => rw [hn] at hload; exact absurd hload (by simp)
    | ok n =>
      rw [hn] at hload
      cases hrest : LoadNotes path b nf with
      | error e => rw [hrest] at hload; exact absurd hload (by simp)
      | ok notes2 =>
        rw [hrest] at hload
        have hnotes : notes = n :: notes2 := by
          have := hload
          simp at this
          exact this.symm
        subst hnotes
        simp only [List.cons_append, readNotebookLoop, if_neg hname, hn]
        simp only [List.length_cons, List.replicate_succ]
        rw [listSet_append done none (List.replicate nf.length none) (some n)]
        simp only []
        have hstep :
            done ++ some n :: List.replicate nf.length none =
              (done ++ [some n]) ++ List.replicate nf.length none := by
          simp
        rw [hstep]
        have hlen : done.length + 1 = (done ++ [some n]).length := by
          simp
        rw [hlen]
        simp only [List.append_eq]
        rw [ih (done ++ [some n]) md0 notes2
          (fun e he => hnames e (List.mem_cons_of_mem _ he)) hrest]
        cases ReadNotebookMetadata (path ++ ["meta.json"]) (some mn) with
        | error e => rfl
        | ok m => simp

/-- The notebook loop with the meta.json entry last never hits the
out-of-bounds branch, whatever the notes load to. -/
theorem readNotebookLoop_meta_last_no_oob (path : List String) (b : Bool) (mn : FSNode)
    (nf : List (String × FSNode)) :
    ∀ (done : List (Option Note)) (md0 : Option NotebookMetadata),
    (∀ e ∈ nf, ¬(e.1 = "meta.json")) →
    readNotebookLoop path b (nf ++ [("meta.json", mn)]) done.length md0
        (done ++ List.replicate nf.length none) ≠ .error .indexOutOfRange := by
  induction nf with
  | nil =>
    intro done md0 _
    simp only [List.nil_append, List.length_nil, List.replicate_zero, List.append_nil]
    simp only [readNotebookLoop, if_pos rfl]
    cases hm : ReadNotebookMetadata (path ++ ["meta.json"]) (some mn) with
    | error e =>
      intro h
      simp at h
      exact ReadNotebookMetadata_no_oob _ _ (h ▸ hm)
    | ok m => simp [readNotebookLoop]
  | cons hd nf ih =>
    intro done md0 hnames
    obtain ⟨name, child⟩ := hd
    have hname : ¬(name = "meta.json") := hnames (name, child) (List.mem_cons_self _ _)
    simp only [List.cons_append, readNotebookLoop, if_neg hname]
    cases hn : ReadNote (path ++ [name]) (some child) b with
    | error e =>
      intro h
      simp at h
      exact ReadNote_no_oob _ _ _ (h ▸ hn)
    | ok n =>
      simp only [List.length_cons, List.replicate_succ]
      rw [listSet_append done none (List.replicate nf.length none) (some n)]
      simp only []
      have hstep :
          done ++ some n :: List.replicate nf.length none =
            (done ++ [some n]) ++ List.replicate nf.length none := by
        simp
      rw [hstep]
      have hlen : done.length + 1 = (done ++ [some n]).length := by
        simp
      rw [hlen]
      simp only [List.append_eq]
      exact ih (done ++ [some n]) md0 (fun e he => hnames e (List.mem_cons_of_mem _ he))

/-- C2 (counterexample): the claim admits the meta.json entry at any position
of the enumeration, but with meta.json first and one note after it,
ReadNotebook writes the note at index 1 of a one-slot slice: the loader
fails with the out-of-range panic instead of returning a one-note
notebook. -/
theorem readNotebook_meta_first_panics :
    ReadNotebook ["n.qvnotebook"]
      (some (.dir [("meta.json", .file fixNbMetaTextA), ("z.qvnote", fixNoteDirA)]))
      false = .error .indexOutOfRange :=
  rfl

/-- C2 (amended): when the meta.json entry is the last of the enumeration,
ReadNotebook returns exactly one note per remaining entry, each present, in
enumeration order, with the metadata parsed from meta.json. -/
theorem readNotebook_meta_last_ok (path : List String) (b : Bool)
    (nf : List (String × FSNode)) (mn : FSNode) (md : NotebookMetadata) (notes : List Note)
    (hsuf : (goHasSuffix (baseName path) ".qvnotebook") = true)
    (hnames : ∀ e ∈ nf, ¬(e.1 = "meta.json"))
    (hmeta : ReadNotebookMetadata (path ++ ["meta.json"]) (some mn) = .ok md)
    (hnotes : LoadNotes path b nf = .ok notes) :
    ReadNotebook path (some (.dir (nf ++ [("meta.json", mn)]))) b =
      .ok ⟨some md, notes.map some⟩ := by
  have hIs : IsNotebook path (some (.dir (nf ++ [("meta.json", mn)]))) = .ok true := by
    simp [IsNotebook, FSNode.isDir, hsuf]
  unfold ReadNotebook
  rw [hIs]
  simp only [List.length_append, List.length_cons, List.length_nil]
  have hnum : (if nf.length + (0 + 1) > 1 then nf.length + (0 + 1) - 1 else 0) = nf.length := by
    by_cases hq : nf.length + (0 + 1) > 1
    · simp only [if_pos hq]
      omega
    · simp only [if_neg hq]
      omega
  rw [hnum]
  have hloop := readNotebookLoop_meta_last path b mn nf [] none notes hnames hnotes
  simp only [List.length_nil, List.nil_append] at hloop
  rw [hloop, hmeta]

/-- C2 (witness): the amended theorem applied at a concrete notebook holding
one note and then meta.json. -/
theorem readNotebook_meta_last_ok_witness :
    ReadNotebook ["nb.qvnotebook"]
      (some (.dir [("z.qvnote", fixNoteDirA), ("meta.json", .file fixNbMetaTextA)]))
      false = .ok ⟨some ⟨"NB", "U1"⟩, [some fixNoteRecA]⟩ :=
  readNotebook_meta_last_ok ["nb.qvnotebook"] false [("z.qvnote", fixNoteDirA)]
    (.file fixNbMetaTextA) ⟨"NB", "U1"⟩ [fixNoteRecA] rfl (by decide) rfl rfl

/-- C9 (counterexample): the claim asserts in-bounds writes for every
position of meta.json; with meta.json first and two notes after it the
second note is written at index 2 of a two-slot slice, hitting the
out-of-bounds branch. -/
theorem readNotebook_write_out_of_bounds :
    ReadNotebook ["m.qvnotebook"]
      (some (.dir [("meta.json", .file fixNbMetaTextB), ("x.qvnote", fixNoteDirB),
        ("y.qvnote", fixNoteDirB)]))
      false = .error .indexOutOfRange :=
  rfl

/-- C9 (amended): when the meta.json entry is the last of the enumeration,
every write into the pre-allocated notes slice is in bounds: ReadNotebook
never returns the out-of-range panic, whatever the entries load to. -/
theorem readNotebook_meta_last_in_bounds (path : List String) (b : Bool)
    (nf : List (String × FSNode)) (mn : FSNode)
    (hnames : ∀ e ∈ nf, ¬(e.1 = "meta.json")) :
    ReadNotebook path (some (.dir (nf ++ [("meta.json", mn)]))) b ≠
      .error .indexOutOfRange := by
  unfold ReadNotebook
  by_cases hsuf : (goHasSuffix (baseName path) ".qvnotebook") = true
  · have hIs : IsNotebook path (some (.dir (nf ++ [("meta.json", mn)]))) = .ok true := by
      simp [IsNotebook, FSNode.isDir, hsuf]
    rw [hIs]
    simp only [List.length_append, List.length_cons, List.length_nil]
    have hnum : (if nf.length + (0 + 1) > 1 then nf.length + (0 + 1) - 1 else 0) = nf.length := by
      by_cases hq : nf.length + (0 + 1) > 1
      · simp only [if_pos hq]
        omega
      · simp only [if_neg hq]
        omega
    rw [hnum]
    have hloop := readNotebookLoop_meta_last_no_oob path b mn nf [] none hnames
    simp only [List.length_nil, List.nil_append] at hloop
    cases hl : readNotebookLoop path b (nf ++ [("meta.json", mn)]) 0 none
        (List.replicate nf.length none) with
    | error e =>
      rw [hl] at hloop
      intro h
      simp only [] at h
      simp at h
      exact hloop (by rw [h])
    | ok p => simp
  · have hIs : IsNotebook path (some (.dir (nf ++ [("meta.json", mn)]))) =
        .error .wrongExtension := by
      simp [IsNotebook, FSNode.isDir, hsuf]
    rw [hIs]
    simp

/-- C9 (witness): the amended theorem applied at a concrete notebook with one
note entry and then meta.json. -/
theorem readNotebook_meta_last_in_bounds_witness :
    ReadNotebook ["w.qvnotebook"]
      (some (.dir [("x.qvnote", fixNoteDirB), ("meta.json", .file fixNbMetaTextB)]))
      false ≠ .error .indexOutOfRange :=
  readNotebook_meta_last_in_bounds ["w.qvnotebook"] false [("x.qvnote", fixNoteDirB)]
    (.file fixNbMetaTextB) (by decide)

/-- The library loop without any meta.json entry: it is exactly LoadNotebooks
with the metadata accumulator untouched. -/
theorem readLibraryLoop_no_meta (path : List String) (b : Bool)
    (files : List (String × FSNode)) :
    ∀ (md : Option LibraryMetadata) (acc : List Notebook),
    (∀ e ∈ files, ¬(e.1 = "meta.json")) →
    readLibraryLoop path b files md acc =
      match LoadNotebooks path b files with
      | .error e => .error e
      | .ok l => .ok (md, acc ++ l) := by
  induction files with
  | nil =>
    intro md acc _
    simp [readLibraryLoop, LoadNotebooks]
  | cons hd rest ih =>
    intro md acc hnames
    obtain ⟨name, child⟩ := hd
    have hname : ¬(name = "meta.json") := hnames (name, child) (List.mem_cons_self _ _)
    simp only [readLibraryLoop, if_neg hname, LoadNotebooks]
    cases hn : ReadNotebook (path ++ [name]) (some child) b with
    | error e => simp
    | ok n =>
      simp only []
      rw [ih md (acc ++ [n]) (fun e he => hnames e (List.mem_cons_of_mem _ he))]
      cases LoadNotebooks path b rest with
      | error e => rfl
      | ok l => simp

/-- Every successful pass of the library loop loaded every non-meta entry as
a notebook, in order, appended to the accumulator. -/
theorem readLibraryLoop_ok_all (path : List String) (b : Bool)
    (files : List (String × FSNode)) :
    ∀ (md : Option LibraryMetadata) (acc : List Notebook)
      (md2 : Option LibraryMetadata) (nbs2 : List Notebook),
    readLibraryLoop path b files md acc = .ok (md2, nbs2) →
    ∃ l, LoadNotebooks path b (files.filter (fun e => !(e.1 == "meta.json"))) = .ok l ∧
      nbs2 = acc ++ l := by
  induction files with
  | nil =>
    intro md acc md2 nbs2 h
    simp only [readLibraryLoop] at h
    refine ⟨[], by simp [LoadNotebooks], ?_⟩
    have : nbs2 = acc := by
      simp at h
      exact h.2.symm
    simp [this]
  | cons hd rest ih =>
    intro md acc md2 nbs2 h
    obtain ⟨name, child⟩ := hd
    by_cases hname : name = "meta.json"
    · subst hname
      simp only [readLibraryLoop, if_pos rfl] at h
      cases hm : ReadLibraryMetadata (path ++ ["meta.json"]) (some child) with
      | error e => rw [hm] at h; exact absurd h (by simp)
      | ok m =>
        rw [hm] at h
        obtain ⟨l, hl, hn⟩ := ih (some m) acc md2 nbs2 h
        exact ⟨l, by simpa using hl, hn⟩
    · simp only [readLibraryLoop, if_neg hname] at h
      cases hn : ReadNotebook (path ++ [name]) (some child) b with
      | error e => rw [hn] at h; exact absurd h (by simp)
      | ok nb =>
        rw [hn] at h
        obtain ⟨l, hl, hn2⟩ := ih md (acc ++ [nb]) md2 nbs2 h
        refine ⟨nb :: l, ?_, by simp [hn2]⟩
        have hf : ((name, child) :: rest).filter (fun e => !(e.1 == "meta.json")) =
            (name, child) :: rest.filter (fun e => !(e.1 == "meta.json")) := by
          simp [List.filter_cons, hname]
        rw [hf]
        simp [LoadNotebooks, hn, hl]

/-- C3 (counterexample): a parser failure deep in the tree aborts the load,
but the error the caller receives is the bare MalformedJSON kind, which (like
the Go json decode errors it models) carries no path naming the offending
file. -/
theorem readLibrary_error_without_path :
    ReadLibrary ["L.qvlibrary"] (some fixBadLibDir) false = .error .malformedJSON :=
  rfl

/-- C3 (amended): ReadLibrary is all-or-nothing: a returned Library enumerates
a directory in which every non-meta entry loaded successfully as a notebook,
in enumeration order, with none skipped; any nested failure makes the whole
call return that error, but validator and JSON parse errors carry no path
context (only stat and open errors embed the offending path). -/
theorem readLibrary_all_or_nothing (path : List String) (node : Option FSNode)
    (b : Bool) (lib : Library) (h : ReadLibrary path node b = .ok lib) :
    ∃ files, node = some (.dir files) ∧
      LoadNotebooks path b (files.filter (fun e => !(e.1 == "meta.json"))) =
        .ok lib.notebooks := by
  unfold ReadLibrary at h
  cases hIs : IsLibrary path node with
  | error e => rw [hIs] at h; exact absurd h (by simp)
  | ok v =>
    rw [hIs] at h
    cases node with
    | none => exact absurd hIs (by simp [IsLibrary])
    | some fsn =>
      cases fsn with
      | file c => exact absurd h (by simp)
      | dir files =>
        simp only [] at h
        cases hloop : readLibraryLoop path b files none [] with
        | error e => rw [hloop] at h; exact absurd h (by simp)
        | ok p =>
          obtain ⟨md2, nbs2⟩ := p
          rw [hloop] at h
          have hlib : lib = ⟨md2, nbs2⟩ := by
            simp at h
            exact h.symm
          obtain ⟨l, hl, hn⟩ := readLibraryLoop_ok_all path b files none [] md2 nbs2 hloop
          refine ⟨files, rfl, ?_⟩
          rw [hlib]
          simp only []
          rw [hl, hn]
          simp

/-- C3 (witness): the amended theorem applied at the fixture library, which
loads successfully. -/
theorem readLibrary_all_or_nothing_witness :
    ∃ files, (some fixLibDirA : Option FSNode) = some (.dir files) ∧
      LoadNotebooks ["Q.qvlibrary"] false (files.filter (fun e => !(e.1 == "meta.json"))) =
        .ok fixLibRecA.notebooks :=
  readLibrary_all_or_nothing ["Q.qvlibrary"] (some fixLibDirA) false fixLibRecA rfl

/-- C10 (counterexample): the claim promises success for every library
directory passing IsLibrary whose children lack meta.json, but a child that
fails to load as a notebook (here a plain file) fails the whole load. -/
theorem readLibrary_missing_meta_counterexample :
    ReadLibrary ["x.qvlibrary"] (some (.dir [("bogus", .file "z")])) false =
      .error .notADirectory :=
  rfl

/-- C10 (amended): a library directory passing the IsLibrary check with no
child named meta.json, all of whose children load as notebooks, loads
successfully into a Library whose LibraryMetadata is nil: the missing
metadata file is not an error. -/
theorem readLibrary_missing_meta_ok (path : List String) (b : Bool)
    (files : List (String × FSNode)) (nbs : List Notebook)
    (hsuf : (goHasSuffix (baseName path) ".qvlibrary") = true)
    (hnames : ∀ e ∈ files, ¬(e.1 = "meta.json"))
    (hload : LoadNotebooks path b files = .ok nbs) :
    ReadLibrary path (some (.dir files)) b = .ok ⟨none, nbs⟩ := by
  have hIs : IsLibrary path (some (.dir files)) = .ok true := by
    simp [IsLibrary, FSNode.isDir, hsuf]
  unfold ReadLibrary
  rw [hIs]
  simp only []
  rw [readLibraryLoop_no_meta path b files none [] hnames, hload]
  simp

/-- C10 (witness): the amended theorem applied at a concrete library with one
notebook and no meta.json. -/
theorem readLibrary_missing_meta_ok_witness :
    ReadLibrary ["w.qvlibrary"] (some (.dir [("n2.qvnotebook", fixNbDirB)])) false =
      .ok ⟨none, [fixNbRecB]⟩ :=
  readLibrary_missing_meta_ok ["w.qvlibrary"] false [("n2.qvnotebook", fixNbDirB)]
    [fixNbRecB] rfl (by decide) rfl

/-- Running a visitor over concatenated visit lists short-circuits exactly
like running the two lists in sequence. -/
theorem runVisits_append (f : String → List String → Except E Unit)
    (a b : List (String × List String)) :
    runVisits f (a ++ b) =
      match runVisits f a with
      | .error e => .error e
      | .ok _ => runVisits f b := by
  induction a with
  | nil => simp [runVisits]
  | cons hd rest ih =>
    obtain ⟨u, ps⟩ := hd
    simp only [List.cons_append, runVisits]
    cases hf : f u ps with
    | error e => simp
    | ok v => simp [ih]

/-- The walker equals the run of its visitor over the pre-order visit list:
both forms, node-wise and forest-wise, by strong induction on size. -/
theorem walk_runVisits_aux (E : Type) (k : Nat) :
    (∀ (n : NotebookHierarchyInfo), sizeOf n ≤ k →
      ∀ (parents : List String) (f : String → List String → Except E Unit),
        walkNotebooksHierarchy n parents f = runVisits f (preorderVisits n parents)) ∧
    (∀ (l : List NotebookHierarchyInfo), sizeOf l ≤ k →
      ∀ (parents : List String) (f : String → List String → Except E Unit),
        walkNotebooksHierarchyList l parents f = runVisits f (preorderVisitsList l parents)) := by
  induction k with
  | zero =>
    constructor
    · intro n hn
      exfalso
      cases n with
      | mk u c =>
        simp [NotebookHierarchyInfo.mk.sizeOf_spec] at hn
    · intro l hl
      exfalso
      cases l with
      | nil => simp at hl
      | cons a l2 =>
        simp [List.cons.sizeOf_spec] at hl
  | succ k ih =>
    constructor
    · intro n hn parents f
      cases n with
      | mk u children =>
        have hch : sizeOf children ≤ k := by
          simp [NotebookHierarchyInfo.mk.sizeOf_spec] at hn
          omega
        simp only [walkNotebooksHierarchy, preorderVisits, runVisits]
        cases hf : f u parents with
        | error e => simp
        | ok v =>
          simp only []
          by_cases hc : children.length > 0
          · simp only [if_pos hc]
            exact ih.2 children hch (parents ++ [u]) f
          · have hnil : children = [] := List.length_eq_zero.mp (by omega)
            subst hnil
            simp [preorderVisitsList, runVisits]
    · intro l hl parents f
      cases l with
      | nil => rfl
      | cons c rest =>
        have hsz : sizeOf c ≤ k ∧ sizeOf rest ≤ k := by
          simp [List.cons.sizeOf_spec] at hl
          omega
        simp only [walkNotebooksHierarchyList, preorderVisitsList]
        rw [runVisits_append]
        rw [ih.1 c hsz.1 parents f, ih.2 rest hsz.2 parents f]

/-- A key absent from every pair of the index resolves to the nil notebook. -/
theorem mapGet_eq_none (pairs : List (String × Notebook)) (u : String)
    (h : ∀ p ∈ pairs, ¬(p.1 = u)) : mapGet pairs u = none := by
  induction pairs with
  | nil => rfl
  | cons p rest ih =>
    unfold mapGet
    simp only [List.foldl_cons, if_neg (h p (List.mem_cons_self _ _))]
    exact ih (fun q hq => h q (List.mem_cons_of_mem _ hq))

/-- A visitor that accepts every visit makes the whole run succeed. -/
theorem runVisits_allok (f : String → List String → Except E Unit)
    (hf : ∀ u ps, f u ps = .ok ()) :
    ∀ vs, runVisits f vs = .ok () := by
  intro vs
  induction vs with
  | nil => rfl
  | cons hd rest ih =>
    obtain ⟨u, ps⟩ := hd
    simp only [runVisits, hf u ps]
    exact ih

/-- C7: with the declared metadata present and every notebook carrying
metadata (so the uuid index builds), WalkNotebooksHierarchy equals running
the visitor over the pre-order visit list of the declared forest: every node
once, before its children, children in declared order, ancestors resolved
root-first through the index, and a visitor error stops the run and is
returned unchanged (runVisits short-circuits at the first error). -/
theorem walk_hierarchy_preorder (E : Type) (lib : Library) (md : LibraryMetadata)
    (pairs : List (String × Notebook))
    (f : Option Notebook → List (Option Notebook) → Except E Unit)
    (hmd : lib.libraryMetadata = some md)
    (hpairs : notebookPairs lib.notebooks = some pairs) :
    lib.WalkNotebooksHierarchy f =
      some (runVisits
        (fun c parents => f (mapGet pairs c) (parents.map (fun p => mapGet pairs p)))
        (preorderVisitsList md.children [])) := by
  unfold Library.WalkNotebooksHierarchy
  rw [hmd, hpairs]
  simp only []
  exact congrArg some
    ((walk_runVisits_aux E (sizeOf md.children)).2 md.children le_rfl [] _)

/-- C7 (witness): the theorem applied at the two-root fixture library with
the always-accepting visitor. -/
theorem walk_hierarchy_preorder_witness :
    fixWalkLib.WalkNotebooksHierarchy fixVisitorOk =
      some (runVisits
        (fun c parents =>
          fixVisitorOk (mapGet fixWalkPairs c) (parents.map (fun p => mapGet fixWalkPairs p)))
        (preorderVisitsList fixWalkMd.children [])) :=
  walk_hierarchy_preorder String fixWalkLib fixWalkMd fixWalkPairs fixVisitorOk rfl rfl

/-- C8: a UUID that occurs in the declared hierarchy but matches no notebook
resolves to the nil notebook reference; the walk still equals the full
pre-order visitor run (no node is skipped and no failure is raised for the
dangling node), and with a visitor that accepts every visit the whole walk
succeeds. -/
theorem walk_hierarchy_dangling (E : Type) (lib : Library) (md : LibraryMetadata)
    (pairs : List (String × Notebook)) (u : String)
    (f : Option Notebook → List (Option Notebook) → Except E Unit)
    (hmd : lib.libraryMetadata = some md)
    (hpairs : notebookPairs lib.notebooks = some pairs)
    (habsent : ∀ p ∈ pairs, ¬(p.1 = u))
    (_hmem : ∃ ps, (u, ps) ∈ preorderVisitsList md.children []) :
    mapGet pairs u = none ∧
    lib.WalkNotebooksHierarchy f =
      some (runVisits
        (fun c parents => f (mapGet pairs c) (parents.map (fun p => mapGet pairs p)))
        (preorderVisitsList md.children [])) ∧
    ((∀ a b, f a b = .ok ()) → lib.WalkNotebooksHierarchy f = some (.ok ())) := by
  refine ⟨mapGet_eq_none pairs u habsent, ?_, ?_⟩
  · unfold Library.WalkNotebooksHierarchy
    rw [hmd, hpairs]
    simp only []
    exact congrArg some
      ((walk_runVisits_aux E (sizeOf md.children)).2 md.children le_rfl [] _)
  · intro hok
    unfold Library.WalkNotebooksHierarchy
    rw [hmd, hpairs]
    simp only []
    refine congrArg some ?_
    rw [(walk_runVisits_aux E (sizeOf md.children)).2 md.children le_rfl [] _]
    exact runVisits_allok _ (fun u2 ps => by rw [hok]) _

/-- C8 (witness): the theorem applied at the fixture library whose hierarchy
names the unmatched UUID X. -/
theorem walk_hierarchy_dangling_witness :
    mapGet fixDanglePairs "X" = none ∧
    fixDangleLib.WalkNotebooksHierarchy fixVisitorOk =
      some (runVisits
        (fun c parents =>
          fixVisitorOk (mapGet fixDanglePairs c) (parents.map (fun p => mapGet fixDanglePairs p)))
        (preorderVisitsList fixDangleMd.children [])) ∧
    ((∀ a b, fixVisitorOk a b = .ok ()) →
      fixDangleLib.WalkNotebooksHierarchy fixVisitorOk = some (.ok ())) :=
  walk_hierarchy_dangling String fixDangleLib fixDangleMd fixDanglePairs "X" fixVisitorOk
    rfl rfl (by decide) ⟨[], by decide⟩

end Quiver
